import Mathlib

set_option autoImplicit false

/-!
Verification development for the arXiv auto-poster
(`arxiv_auto_poster.py` together with the paper data model of
`arxiv_tracker.py`).

The state-mutating operations of `ArxivAutoPoster` are embedded as pure
functions on an explicit state record.  Timestamps are modelled as integer
epoch seconds, floats as rationals.  External collaborators (the feed
tracker, the LLM accessibility assessor, the priority recalculation of the
tracker revision that is not part of the snapshot) enter as function
parameters of the transitions.  Python in-place sorting is modelled by a
stable insertion sort; Python object mutation of papers shared between the
pool and the working lists is modelled by an id-keyed update map.
-/

/-- Social-engagement counters of the Altmetric payload that the code
reads (cited_by_tweeters_count, cited_by_rdts_count, cited_by_feeds_count). -/
structure AltmetricData where
  tweeters : Nat
  rdts : Nat
  feeds : Nat
deriving DecidableEq

/-- One arXiv paper, restricted to the fields the scheduler logic reads
(`ArxivPaper` of arxiv_tracker.py plus the priority and accessibility
fields used throughout arxiv_auto_poster.py). -/
structure Paper where
  arxivId : String
  categories : List String
  published : Int
  priorityScore : Rat
  altmetricScore : Option Rat
  altmetricData : Option AltmetricData
  accessibility : Option String
deriving DecidableEq

/-- Tunable settings of ArxivAutoPoster.__init__. -/
structure Config where
  maxPostsPerDay : Nat
  postingIntervalSecs : Int
  discoveryIntervalSecs : Int
  poolRetentionDays : Int
  maxPoolSize : Nat
  maxCandidates : Nat
deriving DecidableEq

/-- The values hard-coded in ArxivAutoPoster.__init__. -/
def defaultConfig : Config :=
  { maxPostsPerDay := 999
    postingIntervalSecs := 4 * 3600
    discoveryIntervalSecs := 4 * 3600
    poolRetentionDays := 14
    maxPoolSize := 200
    maxCandidates := 5 }

/-- Mutable state of ArxivAutoPoster: pool, candidates, blacklist,
posted-today list, permanent posted set, timestamps and counter.  The two
Python sets are modelled as duplicate-free lists with an idempotent
insert, which matches set membership exactly. -/
structure PosterState where
  pool : List Paper
  candidates : List Paper
  blacklist : List String
  postedToday : List String
  postedPapers : List String
  lastDiscovery : Option Int
  lastPosting : Option Int
  postedTotal : Nat
deriving DecidableEq

/-- Python set.add: insert the id unless it is already present. -/
def addId (x : String) (l : List String) : List String :=
  if x ∈ l then l else l ++ [x]

/-- Repeated set.add, as performed once per loop iteration. -/
def addAll (l : List String) (adds : List String) : List String :=
  adds.foldl (fun acc i => addId i acc) l

/-- Fresh state as produced by __init__ when no state file exists. -/
def initState : PosterState :=
  { pool := []
    candidates := []
    blacklist := []
    postedToday := []
    postedPapers := []
    lastDiscovery := none
    lastPosting := none
    postedTotal := 0 }

def poolIds (s : PosterState) : List String := s.pool.map Paper.arxivId

def candidateIds (s : PosterState) : List String := s.candidates.map Paper.arxivId

/-! ## Stable sorting

Python `list.sort(key=lambda p: p.priority_score, reverse=True)` is a
stable descending sort.  We model it with a stable insertion sort that the
kernel can evaluate: an element is inserted behind every existing element
that is allowed to precede it, so elements with equal keys keep their
original relative order, exactly as in Python. -/

def insertLe {α : Type} (le : α → α → Bool) (x : α) : List α → List α
  | [] => [x]
  | y :: ys => if le y x then y :: insertLe le x ys else x :: y :: ys

def sortByAux {α : Type} (le : α → α → Bool) (acc : List α) : List α → List α
  | [] => acc
  | x :: xs => sortByAux le (insertLe le x acc) xs

def sortBy {α : Type} (le : α → α → Bool) (l : List α) : List α := sortByAux le [] l

/-- Comparator of the descending priority sort: a may precede b when its
priority is at least that of b. -/
def paperLe (a b : Paper) : Bool := decide (b.priorityScore ≤ a.priorityScore)

/-- Model of pool.sort(key=lambda p: p.priority_score, reverse=True). -/
def sortPapers (l : List Paper) : List Paper := sortBy paperLe l

/-! ## Priority scoring (spec-modelled)

The snapshot of arxiv_tracker.py under src/ is the standalone CLI revision:
its ArxivPaper dataclass has no priority_score, accessibility or
_calculate_priority, although arxiv_auto_poster.py and the test scripts
call them.  The scoring function therefore has to be modelled from the
spec. -/

/-- Modelled from the spec: the missing ArxivPaper._calculate_priority base
term, "base score = (popularity_score + 1)^2 when popularity_score > 0,
else 0" (spec 4.1). -/
def basePopularity : Option Rat → Rat
  | none => 0
  | some a => if 0 < a then (a + 1) ^ 2 else 0

/-- Modelled from the spec: the fixed bonus for popularity crossing the
high and very-high thresholds (spec 4.1); the very-high value 100 at score
10 is documented by test_priority_scoring.py, the high tier value is a
representative choice. -/
def highScoreBonus : Option Rat → Rat
  | none => 0
  | some a => if 10 ≤ a then 100 else if 5 ≤ a then 25 else 0

/-- Modelled from the spec: a recency term that decays linearly over a
freshness window (here 14 days) and may go negative beyond it (spec 4.1). -/
def recencyTerm (now published : Int) : Rat :=
  50 * (1 - ((now - published : Int) : Rat) / (14 * 86400))

/-- Modelled from the spec: ranked topic-category table; the first matching
category yields its bonus, bonuses are not cumulative (spec 4.1). -/
def categoryTable : List (String × Rat) :=
  [("cs.AI", 20), ("cs.LG", 18), ("cs.CL", 15), ("cs.CV", 15),
   ("cs.NE", 12), ("stat.ML", 10)]

def categoryBonus (cats : List String) : Rat :=
  match categoryTable.find? (fun e => cats.contains e.1) with
  | some e => e.2
  | none => 0

/-- Modelled from the spec: capped bonuses per secondary engagement signal,
each capped independently (spec 4.1). -/
def engagementBonus : Option AltmetricData → Rat
  | none => 0
  | some d =>
    min ((d.tweeters : Rat) * 2) 20 + min ((d.rdts : Rat) * 5) 15 +
      min ((d.feeds : Rat) * 3) 15

/-- Modelled from the spec: the rating-dependent multiplicative adjustment,
+20 percent for a high accessibility rating and no change otherwise
(spec 4.3). -/
def accessibilityMultiplier : Option String → Rat
  | none => 1
  | some a => if a = "high" then 6 / 5 else 1

/-- Modelled from the spec: the missing ArxivPaper._calculate_priority.
Sum of base popularity term, threshold bonus, linear recency term, ranked
category bonus and capped engagement bonuses, scaled by the accessibility
multiplier (spec 4.1 and 4.3). -/
def calculatePriority (now : Int) (p : Paper) : Rat :=
  (basePopularity p.altmetricScore + highScoreBonus p.altmetricScore +
      recencyTerm now p.published + categoryBonus p.categories +
      engagementBonus p.altmetricData) *
    accessibilityMultiplier p.accessibility

/-! ## Trending filter (_filter_trending_papers) -/

/-- Python truthiness of paper.altmetric_score combined with a positivity
test, as used by the guard of criterion 5. -/
def hasPositiveAltmetric (p : Paper) : Bool :=
  match p.altmetricScore with
  | none => false
  | some a => decide (a ≠ 0) && decide (0 < a)

/-- Translation of the if/elif chain in _filter_trending_papers for a
single paper.  The five criteria are tried in order; criterion 2 has an
inner engagement test whose failure falls through to nothing (elif
semantics), and criterion 5 only applies when no paper of the whole batch
has a positive Altmetric score. -/
def isTrending (now : Int) (papers : List Paper) (p : Paper) : Bool :=
  let g1 : Bool :=
    match p.altmetricScore with
    | some a => decide (a ≠ 0) && decide ((5 : Rat) ≤ a)
    | none => false
  let g2 : Bool :=
    match p.altmetricScore, p.altmetricData with
    | some a, some _ => decide (a ≠ 0) && decide ((2 : Rat) ≤ a)
    | _, _ => false
  let b2 : Bool :=
    match p.altmetricData with
    | some d => decide (3 ≤ d.tweeters) || decide (1 ≤ d.rdts) || decide (1 ≤ d.feeds)
    | none => false
  let g3 : Bool :=
    match p.altmetricScore with
    | some a => decide (a ≠ 0) && decide ((0 : Rat) < a)
    | none => false
  let g4 : Bool := decide ((80 : Rat) ≤ p.priorityScore)
  let g5 : Bool := !(papers.any hasPositiveAltmetric)
  let b5 : Bool :=
    if now - p.published < 24 * 3600 then
      p.categories.contains "cs.AI" || p.categories.contains "cs.LG"
    else
      decide ((60 : Rat) ≤ p.priorityScore) &&
        (["cs.AI", "cs.LG", "cs.CL", "cs.CV", "cs.NE", "stat.ML"].any
          (fun c => p.categories.contains c))
  if g1 then true
  else if g2 then b2
  else if g3 then true
  else if g4 then true
  else if g5 then b5
  else false

/-- Translation of _filter_trending_papers: keep the trending papers,
sort them by priority descending, and fall back to the top three papers
by priority when none met the criteria. -/
def filterTrending (now : Int) (papers : List Paper) : List Paper :=
  if (papers.filter (isTrending now papers)).isEmpty && !papers.isEmpty then
    (sortPapers papers).take 3
  else sortPapers (papers.filter (isTrending now papers))

/-! ## Discovery (discover_papers and the discovery branch of
run_maintenance_cycle) -/

/-- The already-processed ids filtered out by discover_papers: pool ids,
posted set and blacklist. -/
def isExistingId (s : PosterState) (i : String) : Bool :=
  decide (i ∈ poolIds s) || decide (i ∈ s.postedPapers) || decide (i ∈ s.blacklist)

/-- Translation of discover_papers applied to the list the external
tracker returned: drop already-processed ids, apply the trending filter,
recompute the priority of each survivor and sort descending.  The
recomputation calls the missing _calculate_priority, passed as calcPrio. -/
def discoverPapers (calcPrio : Paper → Rat) (now : Int) (s : PosterState)
    (feed : List Paper) : List Paper :=
  let newPapers := feed.filter (fun p => !isExistingId s p.arxivId)
  let trending := filterTrending now newPapers
  sortPapers (trending.map (fun p => { p with priorityScore := calcPrio p }))

/-- Translation of the pool merge in run_maintenance_cycle: extend the
pool, sort descending by priority, truncate to max_pool_size. -/
def mergePool (cfg : Config) (pool newPapers : List Paper) : List Paper :=
  (sortPapers (pool ++ newPapers)).take cfg.maxPoolSize

/-! ## Candidate selection (_update_candidates) -/

/-- Processing of one paper of the assessment loop in _update_candidates.
Returns the paper to append to accessible_candidates (if any), the id to
add to the blacklist (if any), and the id-keyed record of the in-place
mutation of the shared paper object (if any).  A stored rating is reused
without recomputation; an unrated paper is assessed, rated low papers are
blacklisted and any other rating (including the failure rating "unknown")
keeps the paper as an accessible candidate with a recomputed priority. -/
def processPaper (calcPrio : Paper → Rat) (assess : Paper → String) (p : Paper) :
    Option Paper × Option String × Option (String × Paper) :=
  match p.accessibility with
  | some a =>
    if a = "low" then (none, some p.arxivId, none) else (some p, none, none)
  | none =>
    let a := assess p
    let p1 : Paper := { p with accessibility := some a }
    if a = "low" then (none, some p.arxivId, some (p.arxivId, p1))
    else
      let p2 : Paper := { p1 with priorityScore := calcPrio p1 }
      (some p2, none, some (p.arxivId, p2))

/-- Accumulated effect of the assessment loop: the accessible candidates
in append order, the blacklist additions, and the id-keyed mutations. -/
structure AssessResult where
  acc : List Paper
  bl : List String
  upd : List (String × Paper)
deriving DecidableEq

/-- Translation of the assessment loop of _update_candidates.  cnt is the
number of accessible candidates collected so far; after each paper the
loop stops once max_candidates accessible papers are collected. -/
def assessPapers (cfg : Config) (calcPrio : Paper → Rat) (assess : Paper → String) :
    Nat → List Paper → AssessResult
  | _, [] => ⟨[], [], []⟩
  | cnt, p :: rest =>
    let t := processPaper calcPrio assess p
    let cnt2 := cnt + (if t.1.isSome then 1 else 0)
    if cfg.maxCandidates ≤ cnt2 then ⟨t.1.toList, t.2.1.toList, t.2.2.toList⟩
    else
      let r := assessPapers cfg calcPrio assess cnt2 rest
      ⟨t.1.toList ++ r.acc, t.2.1.toList ++ r.bl, t.2.2.toList ++ r.upd⟩

/-- First updated paper recorded under the given id, if any. -/
def lookupId : List (String × Paper) → String → Option Paper
  | [], _ => none
  | kq :: rest, key => if kq.1 = key then some kq.2 else lookupId rest key

/-- Replay of the in-place mutations on a pool entry: a pool paper whose
id was assessed is replaced by its mutated version. -/
def applyUpd (upd : List (String × Paper)) (p : Paper) : Paper :=
  match lookupId upd p.arxivId with
  | some q => q
  | none => p

/-- The pooled papers not already posted or blacklisted, in descending
priority order (available_papers in _update_candidates). -/
def availablePapers (s : PosterState) : List Paper :=
  (sortPapers s.pool).filter
    (fun p => decide (p.arxivId ∉ s.postedPapers ∧ p.arxivId ∉ s.blacklist))

/-- The prefix of the available papers inspected by the assessment loop
(check 2x candidates needed). -/
def papersToAssess (cfg : Config) (s : PosterState) : List Paper :=
  (availablePapers s).take (cfg.maxCandidates * 2)

def assessedResult (cfg : Config) (calcPrio : Paper → Rat)
    (assess : Paper → String) (s : PosterState) : AssessResult :=
  assessPapers cfg calcPrio assess 0 (papersToAssess cfg s)

/-- Translation of _update_candidates: sort the pool, restrict to papers
neither posted nor blacklisted, assess the top max_candidates * 2 papers,
blacklist the low-rated ones, and install the best max_candidates
accessible papers (sorted by possibly recomputed priority) as the new
candidates list.  Assessed papers are mutated in place, hence the pool is
rewritten through applyUpd. -/
def updateCandidates (cfg : Config) (calcPrio : Paper → Rat)
    (assess : Paper → String) (s : PosterState) : PosterState :=
  if s.pool.isEmpty then { s with candidates := [] }
  else if (availablePapers s).isEmpty then
    { s with pool := sortPapers s.pool, candidates := [] }
  else
    { s with
        pool := (sortPapers s.pool).map (applyUpd (assessedResult cfg calcPrio assess s).upd)
        blacklist := addAll s.blacklist (assessedResult cfg calcPrio assess s).bl
        candidates :=
          (sortPapers (assessedResult cfg calcPrio assess s).acc).take cfg.maxCandidates }

/-! ## Pool cleanup (_cleanup_pool) -/

/-- The age filter of _cleanup_pool: keep papers younger than the
retention window. -/
def cleanupFilter (cfg : Config) (now : Int) (pool : List Paper) : List Paper :=
  pool.filter (fun p => decide (now - p.published < cfg.poolRetentionDays * 24 * 3600))

/-- Translation of _cleanup_pool: on a non-empty pool, drop the expired
papers and refresh the candidates; on an empty pool return immediately. -/
def cleanupPool (cfg : Config) (calcPrio : Paper → Rat) (assess : Paper → String)
    (now : Int) (s : PosterState) : PosterState :=
  if s.pool.isEmpty then s
  else updateCandidates cfg calcPrio assess
    { s with pool := cleanupFilter cfg now s.pool }

/-! ## Discovery step of run_maintenance_cycle -/

/-- The discovery branch of run_maintenance_cycle: discover papers; when
there are any, merge them into the truncated sorted pool; either way
record the discovery time and refresh the candidates. -/
def discoverStep (cfg : Config) (calcPrio : Paper → Rat) (assess : Paper → String)
    (now : Int) (feed : List Paper) (s : PosterState) : PosterState :=
  if (discoverPapers calcPrio now s feed).isEmpty then
    updateCandidates cfg calcPrio assess { s with lastDiscovery := some now }
  else
    updateCandidates cfg calcPrio assess
      { s with
          pool := mergePool cfg s.pool (discoverPapers calcPrio now s feed)
          lastDiscovery := some now }

/-! ## Posting (posting branch of run_maintenance_cycle and
post_next_paper) -/

/-- Successful publish: pop the highest-priority candidate, record it in
posted_today, the permanent posted set, the total counter and the posting
timestamp, then backfill the candidates.  Identical in the scheduled and
the manual path. -/
def postSuccessOp (cfg : Config) (calcPrio : Paper → Rat) (assess : Paper → String)
    (now : Int) (s : PosterState) : PosterState :=
  match s.candidates with
  | [] => s
  | paper :: rest =>
    updateCandidates cfg calcPrio assess
      { s with
          candidates := rest
          postedToday := s.postedToday ++ [paper.arxivId]
          postedPapers := addId paper.arxivId s.postedPapers
          postedTotal := s.postedTotal + 1
          lastPosting := some now }

/-- Failed publish: the candidate has already been popped when message
generation or delivery raises (or when the target room cannot be
resolved); the exception handler only logs, so the popped paper is gone
from the candidates and nothing else changes. -/
def postFailureOp (s : PosterState) : PosterState :=
  match s.candidates with
  | [] => s
  | _ :: rest => { s with candidates := rest }

/-- Translation of remove_candidate: find the first candidate with the
given id; when present, pop it, blacklist the id, backfill the candidates
and report success; otherwise report failure without touching anything. -/
def removeCandidate (cfg : Config) (calcPrio : Paper → Rat) (assess : Paper → String)
    (s : PosterState) (arxivId : String) : Bool × PosterState :=
  if s.candidates.any (fun p => p.arxivId = arxivId) then
    let s1 : PosterState :=
      { s with
          candidates := s.candidates.eraseP (fun p => p.arxivId = arxivId)
          blacklist := addId arxivId s.blacklist }
    (true, updateCandidates cfg calcPrio assess s1)
  else (false, s)

/-! ## The transition system

One constructor per mutating operation of the auto-poster.  The external
inputs of each operation (the feed batch, the clock, the assessor, the
priority recalculation) are universally quantified; the feed batch is
assumed free of duplicate ids, as a batch parsed from distinct arXiv
entries is.  The posting constructors carry the preconditions checked by
the code before popping a candidate (candidates non-empty, daily quota not
reached); the scheduled path checks the posting interval in addition, so
every posting the code performs is covered. -/
inductive StepR (cfg : Config) : PosterState → PosterState → Prop
  | discover (calcPrio : Paper → Rat) (assess : Paper → String) (now : Int)
      (feed : List Paper) (s : PosterState)
      (hfeed : (feed.map Paper.arxivId).Nodup) :
      StepR cfg s (discoverStep cfg calcPrio assess now feed s)
  | cleanup (calcPrio : Paper → Rat) (assess : Paper → String) (now : Int)
      (s : PosterState) :
      StepR cfg s (cleanupPool cfg calcPrio assess now s)
  | updateCands (calcPrio : Paper → Rat) (assess : Paper → String)
      (s : PosterState) :
      StepR cfg s (updateCandidates cfg calcPrio assess s)
  | post (calcPrio : Paper → Rat) (assess : Paper → String) (now : Int)
      (s : PosterState) (hq : s.postedToday.length < cfg.maxPostsPerDay)
      (hc : s.candidates ≠ []) :
      StepR cfg s (postSuccessOp cfg calcPrio assess now s)
  | postFail (s : PosterState) (hq : s.postedToday.length < cfg.maxPostsPerDay)
      (hc : s.candidates ≠ []) :
      StepR cfg s (postFailureOp s)
  | removeCand (calcPrio : Paper → Rat) (assess : Paper → String)
      (s : PosterState) (arxivId : String) :
      StepR cfg s (removeCandidate cfg calcPrio assess s arxivId).2

/-- States reachable from the fresh state. -/
def ReachableFrom (cfg : Config) (s : PosterState) : Prop :=
  Relation.ReflTransGen (StepR cfg) initState s

/-- Invariant of every reachable auto-poster state: pool and candidate ids
are duplicate-free, every candidate id also sits in the pool but neither in
the blacklist nor in the posted set, blacklist and posted set are disjoint,
and both capacity bounds hold. -/
structure StateInv (cfg : Config) (s : PosterState) : Prop where
  poolNodup : (poolIds s).Nodup
  candNodup : (candidateIds s).Nodup
  candSubPool : ∀ p ∈ s.candidates, p.arxivId ∈ poolIds s
  candNotBl : ∀ p ∈ s.candidates, p.arxivId ∉ s.blacklist
  candNotPosted : ∀ p ∈ s.candidates, p.arxivId ∉ s.postedPapers
  blPostedDisj : ∀ i ∈ s.blacklist, i ∉ s.postedPapers
  poolLe : s.pool.length ≤ cfg.maxPoolSize
  candLe : s.candidates.length ≤ cfg.maxCandidates

/-! ## Concrete runs of the transition system

These states are obtained by running the embedded operations on small
concrete feeds; they serve as witnesses and counterexamples below. -/

def exNow : Int := 1700000000

def exCalc : Paper → Rat := calculatePriority exNow

def mkPaper (i : String) (a : Rat) : Paper :=
  { arxivId := i
    categories := []
    published := exNow
    priorityScore := 0
    altmetricScore := some a
    altmetricData := none
    accessibility := none }

def paperA : Paper := { mkPaper "a" 10 with categories := ["cs.AI"] }

def exAssessHigh : Paper → String := fun _ => "high"

/-- State after one discovery of the single paper "a", which is assessed
high and promoted: the paper is now both in the pool and a candidate. -/
def exS1 : PosterState :=
  discoverStep defaultConfig exCalc exAssessHigh exNow [paperA] initState

/-- The shape paper "a" has inside exS1 (assessed high, rescored). -/
def paperA2 : Paper :=
  { paperA with accessibility := some "high", priorityScore := 1746 / 5 }

/-- State after the candidate "a" is successfully posted from exS1. -/
def exS2 : PosterState := postSuccessOp defaultConfig exCalc exAssessHigh exNow exS1

def paperC : Paper := mkPaper "c" 7

def exAssessLow : Paper → String := fun _ => "low"

/-- State after one discovery of the single paper "c", which is assessed
low: it is blacklisted but stays in the pool. -/
def exS5 : PosterState :=
  discoverStep defaultConfig exCalc exAssessLow exNow [paperC] initState

def paperB : Paper := mkPaper "b" 6

def exAssessUnknown : Paper → String := fun _ => "unknown"

/-- State after one discovery of the single paper "b", whose accessibility
assessment fails (rating "unknown"): it is promoted to candidate anyway. -/
def exS6 : PosterState :=
  discoverStep defaultConfig exCalc exAssessUnknown exNow [paperB] initState

def exIds8 : List String :=
  ["p0", "p1", "p2", "p3", "p4", "p5", "p6", "p7", "p8", "p9", "p10", "p11",
   "p12", "p13", "p14", "p15", "p16"]

/-- Seventeen papers with strictly decreasing Altmetric scores. -/
def exFeed8 : List Paper := exIds8.enum.map (fun e => mkPaper e.2 (90 - (e.1 : Rat)))

def mediums8 : List String := ["p6", "p7", "p8", "p9"]

/-- Assessor rating p6 to p9 medium and every other paper low. -/
def exAssess8 : Paper → String :=
  fun p => if mediums8.contains p.arxivId then "medium" else "low"

/-- State after discovering the seventeen papers: the assessment window
covered p0 to p9, blacklisting the six low papers among them; p10 to p16
are still unassessed. -/
def exS8 : PosterState :=
  discoverStep defaultConfig exCalc exAssess8 exNow exFeed8 initState

/-- First cleanup run on exS8: the window now reaches p10 to p15, which
are assessed low and blacklisted. -/
def exC8a : PosterState := cleanupPool defaultConfig exCalc exAssess8 exNow exS8

/-- Second cleanup run: the window shift exposes p16, which is assessed
low and blacklisted, so the second run is not a no-op. -/
def exC8b : PosterState := cleanupPool defaultConfig exCalc exAssess8 exNow exC8a

/-- Paper "a" stripped of its Altmetric signal, for the C4 witness. -/
def paperQ : Paper := { paperA with altmetricScore := none }


/-! ## Lemmas about the stable sort -/

theorem insertLe_perm {α : Type} (le : α → α → Bool) (x : α) (l : List α) :
    (insertLe le x l).Perm (x :: l) := by
  induction l with
  | nil => simp [insertLe]
  | cons y ys ih =>
    simp only [insertLe]
    split
    · exact ((ih.cons y).trans (List.Perm.swap x y ys))
    · exact List.Perm.refl _

theorem sortByAux_perm {α : Type} (le : α → α → Bool) (l : List α) :
    ∀ acc : List α, (sortByAux le acc l).Perm (acc ++ l) := by
  induction l with
  | nil => intro acc; simp [sortByAux]
  | cons x xs ih =>
    intro acc
    have h1 := ih (insertLe le x acc)
    have h2 : (insertLe le x acc ++ xs).Perm (acc ++ x :: xs) := by
      refine ((insertLe_perm le x acc).append_right xs).trans ?_
      exact List.perm_middle.symm
    exact h1.trans h2

theorem sortBy_perm {α : Type} (le : α → α → Bool) (l : List α) :
    (sortBy le l).Perm l := by
  simpa [sortBy] using sortByAux_perm le l []

theorem sortPapers_perm (l : List Paper) : (sortPapers l).Perm l :=
  sortBy_perm paperLe l

theorem mem_insertLe {α : Type} {le : α → α → Bool} {x a : α} {l : List α} :
    a ∈ insertLe le x l ↔ a = x ∨ a ∈ l := by
  rw [(insertLe_perm le x l).mem_iff, List.mem_cons]

theorem insertLe_pairwise {α : Type} {le : α → α → Bool}
    (htot : ∀ a b, le a b = false → le b a = true)
    (htrans : ∀ a b c, le a b = true → le b c = true → le a c = true)
    {x : α} {l : List α} (h : l.Pairwise (fun a b => le a b = true)) :
    (insertLe le x l).Pairwise (fun a b => le a b = true) := by
  induction l with
  | nil => simp [insertLe]
  | cons y ys ih =>
    rcases List.pairwise_cons.1 h with ⟨hy, hys⟩
    simp only [insertLe]
    split
    · rename_i hle
      refine List.pairwise_cons.2 ⟨?_, ih hys⟩
      intro z hz
      rcases mem_insertLe.1 hz with rfl | hz
      · exact hle
      · exact hy z hz
    · rename_i hle
      have hxy : le x y = true := htot y x (Bool.eq_false_iff.2 hle ▸ rfl)
      refine List.pairwise_cons.2 ⟨?_, h⟩
      intro z hz
      rcases List.mem_cons.1 hz with rfl | hz
      · exact hxy
      · exact htrans x y z hxy (hy z hz)

theorem sortByAux_pairwise {α : Type} {le : α → α → Bool}
    (htot : ∀ a b, le a b = false → le b a = true)
    (htrans : ∀ a b c, le a b = true → le b c = true → le a c = true)
    (l : List α) :
    ∀ acc : List α, acc.Pairwise (fun a b => le a b = true) →
      (sortByAux le acc l).Pairwise (fun a b => le a b = true) := by
  induction l with
  | nil => intro acc h; simpa [sortByAux] using h
  | cons x xs ih =>
    intro acc h
    exact ih (insertLe le x acc) (insertLe_pairwise htot htrans h)

theorem sortBy_pairwise {α : Type} {le : α → α → Bool}
    (htot : ∀ a b, le a b = false → le b a = true)
    (htrans : ∀ a b c, le a b = true → le b c = true → le a c = true)
    (l : List α) : (sortBy le l).Pairwise (fun a b => le a b = true) :=
  sortByAux_pairwise htot htrans l [] (List.Pairwise.nil)

theorem paperLe_total (a b : Paper) : paperLe a b = false → paperLe b a = true := by
  simp only [paperLe, decide_eq_false_iff_not, decide_eq_true_eq]
  exact fun h => le_of_not_le h

theorem paperLe_trans (a b c : Paper) :
    paperLe a b = true → paperLe b c = true → paperLe a c = true := by
  simp only [paperLe, decide_eq_true_eq]
  exact fun h1 h2 => le_trans h2 h1

theorem sortPapers_sorted (l : List Paper) :
    (sortPapers l).Pairwise (fun a b => b.priorityScore ≤ a.priorityScore) := by
  have := sortBy_pairwise paperLe_total paperLe_trans l
  refine this.imp ?_
  intro a b h
  simpa [paperLe] using h

/-! ## Lemmas about the set model -/

theorem mem_addId {x y : String} {l : List String} :
    y ∈ addId x l ↔ y = x ∨ y ∈ l := by
  unfold addId
  split
  · rename_i hx
    constructor
    · exact Or.inr
    · rintro (rfl | h)
      · exact hx
      · exact h
  · simp [or_comm]

theorem mem_addAll {adds : List String} :
    ∀ {l : List String} {y : String}, y ∈ addAll l adds ↔ y ∈ l ∨ y ∈ adds := by
  induction adds with
  | nil => intro l y; simp [addAll]
  | cons a rest ih =>
    intro l y
    have h0 : addAll l (a :: rest) = addAll (addId a l) rest := rfl
    rw [h0, ih, mem_addId, List.mem_cons]
    tauto

/-! ## Lemmas about the assessment loop -/

theorem processPaper_acc_id {calcPrio : Paper → Rat} {assess : Paper → String}
    {p q : Paper} (h : (processPaper calcPrio assess p).1 = some q) :
    q.arxivId = p.arxivId ∧ q.published = p.published := by
  unfold processPaper at h
  split at h
  · split at h
    · simp at h
    · rcases Option.some.inj h with rfl
      exact ⟨rfl, rfl⟩
  · simp only [] at h
    split at h
    · simp at h
    · rcases Option.some.inj h with rfl
      exact ⟨rfl, rfl⟩

theorem processPaper_bl_id {calcPrio : Paper → Rat} {assess : Paper → String}
    {p : Paper} {i : String} (h : (processPaper calcPrio assess p).2.1 = some i) :
    i = p.arxivId := by
  unfold processPaper at h
  split at h
  · split at h
    · exact (Option.some.inj h).symm
    · simp at h
  · simp only [] at h
    split at h
    · exact (Option.some.inj h).symm
    · simp at h

theorem processPaper_upd_id {calcPrio : Paper → Rat} {assess : Paper → String}
    {p : Paper} {kq : String × Paper} (h : (processPaper calcPrio assess p).2.2 = some kq) :
    kq.1 = p.arxivId ∧ kq.2.arxivId = p.arxivId ∧ kq.2.published = p.published := by
  unfold processPaper at h
  split at h
  · split at h <;> simp at h
  · simp only [] at h
    split at h
    · rcases Option.some.inj h with rfl
      exact ⟨rfl, rfl, rfl⟩
    · rcases Option.some.inj h with rfl
      exact ⟨rfl, rfl, rfl⟩

theorem processPaper_not_both {calcPrio : Paper → Rat} {assess : Paper → String}
    {p : Paper} {q : Paper} (h : (processPaper calcPrio assess p).1 = some q) :
    (processPaper calcPrio assess p).2.1 = none := by
  unfold processPaper at h ⊢
  split at h
  · split at h <;> simp_all
  · simp only [] at h ⊢
    split at h <;> simp_all

theorem assessPapers_nil (cfg : Config) (calcPrio : Paper → Rat)
    (assess : Paper → String) (cnt : Nat) :
    assessPapers cfg calcPrio assess cnt [] = ⟨[], [], []⟩ := rfl

theorem assessPapers_cons (cfg : Config) (calcPrio : Paper → Rat)
    (assess : Paper → String) (cnt : Nat) (p : Paper) (rest : List Paper) :
    assessPapers cfg calcPrio assess cnt (p :: rest) =
      (if cfg.maxCandidates ≤
          cnt + (if (processPaper calcPrio assess p).1.isSome then 1 else 0) then
        ⟨(processPaper calcPrio assess p).1.toList,
          (processPaper calcPrio assess p).2.1.toList,
          (processPaper calcPrio assess p).2.2.toList⟩
      else
        ⟨(processPaper calcPrio assess p).1.toList ++
            (assessPapers cfg calcPrio assess
              (cnt + (if (processPaper calcPrio assess p).1.isSome then 1 else 0))
              rest).acc,
          (processPaper calcPrio assess p).2.1.toList ++
            (assessPapers cfg calcPrio assess
              (cnt + (if (processPaper calcPrio assess p).1.isSome then 1 else 0))
              rest).bl,
          (processPaper calcPrio assess p).2.2.toList ++
            (assessPapers cfg calcPrio assess
              (cnt + (if (processPaper calcPrio assess p).1.isSome then 1 else 0))
              rest).upd⟩) := rfl

theorem assessPapers_acc_mem {cfg : Config} {calcPrio : Paper → Rat}
    {assess : Paper → String} :
    ∀ {ps : List Paper} {cnt : Nat} {q : Paper},
      q ∈ (assessPapers cfg calcPrio assess cnt ps).acc →
      ∃ p ∈ ps, q.arxivId = p.arxivId ∧ q.published = p.published := by
  intro ps
  induction ps with
  | nil => intro cnt q h; simp [assessPapers_nil] at h
  | cons p rest ih =>
    intro cnt q h
    rw [assessPapers_cons] at h
    have hcase : (processPaper calcPrio assess p).1 = some q ∨
        q ∈ (assessPapers cfg calcPrio assess
          (cnt + (if (processPaper calcPrio assess p).1.isSome then 1 else 0)) rest).acc := by
      by_cases hb : cfg.maxCandidates ≤
          cnt + (if (processPaper calcPrio assess p).1.isSome then 1 else 0)
      · rw [if_pos hb] at h
        left
        rw [← Option.mem_def, ← Option.mem_toList]
        exact h
      · rw [if_neg hb] at h
        rcases List.mem_append.1 h with h | h
        · left
          rw [← Option.mem_def, ← Option.mem_toList]
          exact h
        · right; exact h
    rcases hcase with hq | hq
    · rcases processPaper_acc_id hq with ⟨h1, h2⟩
      exact ⟨p, List.mem_cons_self p rest, h1, h2⟩
    · rcases ih hq with ⟨p2, hp2, h1, h2⟩
      exact ⟨p2, List.mem_cons_of_mem p hp2, h1, h2⟩

theorem assessPapers_bl_mem {cfg : Config} {calcPrio : Paper → Rat}
    {assess : Paper → String} :
    ∀ {ps : List Paper} {cnt : Nat} {i : String},
      i ∈ (assessPapers cfg calcPrio assess cnt ps).bl → ∃ p ∈ ps, i = p.arxivId := by
  intro ps
  induction ps with
  | nil => intro cnt i h; simp [assessPapers_nil] at h
  | cons p rest ih =>
    intro cnt i h
    rw [assessPapers_cons] at h
    have hcase : (processPaper calcPrio assess p).2.1 = some i ∨
        i ∈ (assessPapers cfg calcPrio assess
          (cnt + (if (processPaper calcPrio assess p).1.isSome then 1 else 0)) rest).bl := by
      by_cases hb : cfg.maxCandidates ≤
          cnt + (if (processPaper calcPrio assess p).1.isSome then 1 else 0)
      · rw [if_pos hb] at h
        left
        rw [← Option.mem_def, ← Option.mem_toList]
        exact h
      · rw [if_neg hb] at h
        rcases List.mem_append.1 h with h | h
        · left
          rw [← Option.mem_def, ← Option.mem_toList]
          exact h
        · right; exact h
    rcases hcase with hq | hq
    · exact ⟨p, List.mem_cons_self p rest, processPaper_bl_id hq⟩
    · rcases ih hq with ⟨p2, hp2, h1⟩
      exact ⟨p2, List.mem_cons_of_mem p hp2, h1⟩

theorem assessPapers_upd_mem {cfg : Config} {calcPrio : Paper → Rat}
    {assess : Paper → String} :
    ∀ {ps : List Paper} {cnt : Nat} {kq : String × Paper},
      kq ∈ (assessPapers cfg calcPrio assess cnt ps).upd →
      kq.2.arxivId = kq.1 ∧ ∃ p ∈ ps, kq.1 = p.arxivId ∧ kq.2.published = p.published := by
  intro ps
  induction ps with
  | nil => intro cnt kq h; simp [assessPapers_nil] at h
  | cons p rest ih =>
    intro cnt kq h
    rw [assessPapers_cons] at h
    have hcase : (processPaper calcPrio assess p).2.2 = some kq ∨
        kq ∈ (assessPapers cfg calcPrio assess
          (cnt + (if (processPaper calcPrio assess p).1.isSome then 1 else 0)) rest).upd := by
      by_cases hb : cfg.maxCandidates ≤
          cnt + (if (processPaper calcPrio assess p).1.isSome then 1 else 0)
      · rw [if_pos hb] at h
        left
        rw [← Option.mem_def, ← Option.mem_toList]
        exact h
      · rw [if_neg hb] at h
        rcases List.mem_append.1 h with h | h
        · left
          rw [← Option.mem_def, ← Option.mem_toList]
          exact h
        · right; exact h
    rcases hcase with hq | hq
    · rcases processPaper_upd_id hq with ⟨h1, h2, h3⟩
      exact ⟨h1 ▸ h2, p, List.mem_cons_self p rest, h1, h3⟩
    · rcases ih hq with ⟨h0, p2, hp2, h1, h2⟩
      exact ⟨h0, p2, List.mem_cons_of_mem p hp2, h1, h2⟩

theorem assessPapers_nodup {cfg : Config} {calcPrio : Paper → Rat}
    {assess : Paper → String} :
    ∀ {ps : List Paper} {cnt : Nat}, (ps.map Paper.arxivId).Nodup →
      ((assessPapers cfg calcPrio assess cnt ps).acc.map Paper.arxivId).Nodup ∧
      ∀ q ∈ (assessPapers cfg calcPrio assess cnt ps).acc,
        q.arxivId ∉ (assessPapers cfg calcPrio assess cnt ps).bl := by
  intro ps
  induction ps with
  | nil => intro cnt _; simp [assessPapers_nil]
  | cons p rest ih =>
    intro cnt hnd
    rw [List.map_cons, List.nodup_cons] at hnd
    rcases hnd with ⟨hp, hrest⟩
    rcases @ih (cnt + (if (processPaper calcPrio assess p).1.isSome then 1 else 0))
      hrest with ⟨ihnd, ihdisj⟩
    rw [assessPapers_cons]
    by_cases hb : cfg.maxCandidates ≤
        cnt + (if (processPaper calcPrio assess p).1.isSome then 1 else 0)
    · rw [if_pos hb]
      constructor
      · cases ho : (processPaper calcPrio assess p).1 <;> simp [ho, Option.toList]
      · intro q hq
        have hsome : (processPaper calcPrio assess p).1 = some q := by
          rw [← Option.mem_def, ← Option.mem_toList]
          exact hq
        rw [processPaper_not_both hsome]
        simp [Option.toList]
    · rw [if_neg hb]
      constructor
      · rw [List.map_append, List.nodup_append]
        refine ⟨?_, ihnd, ?_⟩
        · cases ho : (processPaper calcPrio assess p).1 <;> simp [ho, Option.toList]
        · intro i hi hi2
          rcases List.mem_map.1 hi with ⟨q, hq, rfl⟩
          have hsome : (processPaper calcPrio assess p).1 = some q := by
            rw [← Option.mem_def, ← Option.mem_toList]
            exact hq
          rcases List.mem_map.1 hi2 with ⟨q2, hq2, hq2id⟩
          rcases assessPapers_acc_mem hq2 with ⟨p2, hp2, hid2, _⟩
          rcases processPaper_acc_id hsome with ⟨hid, _⟩
          apply hp
          rw [← hid, ← hq2id, hid2]
          exact List.mem_map_of_mem Paper.arxivId hp2
      · intro q hq
        rcases List.mem_append.1 hq with hq | hq
        · have hsome : (processPaper calcPrio assess p).1 = some q := by
            rw [← Option.mem_def, ← Option.mem_toList]
            exact hq
          rcases processPaper_acc_id hsome with ⟨hid, _⟩
          intro hbl
          rcases List.mem_append.1 hbl with hbl | hbl
          · rw [processPaper_not_both hsome] at hbl
            simp [Option.toList] at hbl
          · rcases assessPapers_bl_mem hbl with ⟨p2, hp2, hid2⟩
            apply hp
            rw [← hid, hid2]
            exact List.mem_map_of_mem Paper.arxivId hp2
        · intro hbl
          rcases List.mem_append.1 hbl with hbl | hbl
          · have hsome : (processPaper calcPrio assess p).2.1 = some q.arxivId := by
              rw [← Option.mem_def, ← Option.mem_toList]
              exact hbl
            have hid := processPaper_bl_id hsome
            rcases assessPapers_acc_mem hq with ⟨p2, hp2, hid2, _⟩
            apply hp
            rw [← hid, hid2]
            exact List.mem_map_of_mem Paper.arxivId hp2
          · exact ihdisj q hq hbl

/-! ## Lemmas about the mutation replay -/

theorem lookupId_mem {upd : List (String × Paper)} {key : String} {q : Paper} :
    lookupId upd key = some q → (key, q) ∈ upd := by
  induction upd with
  | nil => intro h; simp [lookupId] at h
  | cons kq rest ih =>
    intro h
    unfold lookupId at h
    split at h
    · rename_i heq
      rcases Option.some.inj h with rfl
      rcases kq with ⟨k1, k2⟩
      simp only [] at heq
      subst heq
      exact List.mem_cons_self _ _
    · exact List.mem_cons_of_mem kq (ih h)

theorem applyUpd_arxivId {upd : List (String × Paper)}
    (hupd : ∀ kq ∈ upd, kq.2.arxivId = kq.1) (p : Paper) :
    (applyUpd upd p).arxivId = p.arxivId := by
  unfold applyUpd
  cases hl : lookupId upd p.arxivId with
  | none => rfl
  | some q => exact hupd _ (lookupId_mem hl)

theorem applyUpd_published {upd : List (String × Paper)} {ps : List Paper}
    (hupd : ∀ kq ∈ upd, ∃ p2 ∈ ps, kq.2.published = p2.published) (p : Paper) :
    (applyUpd upd p).published = p.published ∨
      ∃ p2 ∈ ps, (applyUpd upd p).published = p2.published := by
  unfold applyUpd
  cases hl : lookupId upd p.arxivId with
  | none => exact Or.inl rfl
  | some q => exact Or.inr (hupd _ (lookupId_mem hl))

/-! ## Lemmas about updateCandidates -/

theorem sortPapers_ids_perm (l : List Paper) :
    ((sortPapers l).map Paper.arxivId).Perm (l.map Paper.arxivId) :=
  (sortPapers_perm l).map Paper.arxivId

theorem mem_availablePapers {s : PosterState} {p : Paper} :
    p ∈ availablePapers s ↔
      p ∈ s.pool ∧ p.arxivId ∉ s.postedPapers ∧ p.arxivId ∉ s.blacklist := by
  unfold availablePapers
  rw [List.mem_filter, (sortPapers_perm s.pool).mem_iff, decide_eq_true_eq]

theorem mem_papersToAssess {cfg : Config} {s : PosterState} {p : Paper}
    (h : p ∈ papersToAssess cfg s) :
    p ∈ s.pool ∧ p.arxivId ∉ s.postedPapers ∧ p.arxivId ∉ s.blacklist :=
  mem_availablePapers.1 ((List.take_sublist _ _).subset h)

theorem papersToAssess_sublist (cfg : Config) (s : PosterState) :
    (papersToAssess cfg s).Sublist (sortPapers s.pool) :=
  (List.take_sublist _ _).trans (List.filter_sublist _)

theorem papersToAssess_nodup {cfg : Config} {s : PosterState}
    (h : (poolIds s).Nodup) : ((papersToAssess cfg s).map Paper.arxivId).Nodup := by
  have h1 : ((sortPapers s.pool).map Paper.arxivId).Nodup :=
    (sortPapers_ids_perm s.pool).nodup_iff.2 h
  exact ((papersToAssess_sublist cfg s).map Paper.arxivId).nodup h1

theorem assessedResult_upd_key {cfg : Config} {calcPrio : Paper → Rat}
    {assess : Paper → String} {s : PosterState} :
    ∀ kq ∈ (assessedResult cfg calcPrio assess s).upd, kq.2.arxivId = kq.1 :=
  fun _ h => (assessPapers_upd_mem h).1

theorem mainPoolIds_eq (cfg : Config) (calcPrio : Paper → Rat)
    (assess : Paper → String) (s : PosterState) :
    ((sortPapers s.pool).map
        (applyUpd (assessedResult cfg calcPrio assess s).upd)).map Paper.arxivId
      = (sortPapers s.pool).map Paper.arxivId := by
  rw [List.map_map]
  exact List.map_congr_left
    (fun p _ => applyUpd_arxivId assessedResult_upd_key p)

theorem updateCandidates_poolIds_perm (cfg : Config) (calcPrio : Paper → Rat)
    (assess : Paper → String) (s : PosterState) :
    (poolIds (updateCandidates cfg calcPrio assess s)).Perm (poolIds s) := by
  unfold updateCandidates
  split
  · exact List.Perm.refl _
  split
  · exact sortPapers_ids_perm s.pool
  · show (((sortPapers s.pool).map
        (applyUpd (assessedResult cfg calcPrio assess s).upd)).map Paper.arxivId).Perm
      (poolIds s)
    rw [mainPoolIds_eq]
    exact sortPapers_ids_perm s.pool

theorem updateCandidates_pool_length (cfg : Config) (calcPrio : Paper → Rat)
    (assess : Paper → String) (s : PosterState) :
    (updateCandidates cfg calcPrio assess s).pool.length = s.pool.length := by
  have h := (updateCandidates_poolIds_perm cfg calcPrio assess s).length_eq
  simpa [poolIds] using h

theorem updateCandidates_fixed (cfg : Config) (calcPrio : Paper → Rat)
    (assess : Paper → String) (s : PosterState) :
    (updateCandidates cfg calcPrio assess s).postedPapers = s.postedPapers ∧
    (updateCandidates cfg calcPrio assess s).postedToday = s.postedToday ∧
    (updateCandidates cfg calcPrio assess s).postedTotal = s.postedTotal ∧
    (updateCandidates cfg calcPrio assess s).lastPosting = s.lastPosting ∧
    (updateCandidates cfg calcPrio assess s).lastDiscovery = s.lastDiscovery := by
  unfold updateCandidates
  split
  · exact ⟨rfl, rfl, rfl, rfl, rfl⟩
  split <;> exact ⟨rfl, rfl, rfl, rfl, rfl⟩

theorem updateCandidates_blacklist_subset {cfg : Config} {calcPrio : Paper → Rat}
    {assess : Paper → String} {s : PosterState} :
    s.blacklist ⊆ (updateCandidates cfg calcPrio assess s).blacklist := by
  unfold updateCandidates
  split
  · exact fun _ h => h
  split
  · exact fun _ h => h
  · intro i h
    exact mem_addAll.2 (Or.inl h)

theorem updateCandidates_blacklist_mem {cfg : Config} {calcPrio : Paper → Rat}
    {assess : Paper → String} {s : PosterState} {i : String}
    (h : i ∈ (updateCandidates cfg calcPrio assess s).blacklist) :
    i ∈ s.blacklist ∨ ((∃ p ∈ s.pool, i = p.arxivId) ∧ i ∉ s.postedPapers) := by
  unfold updateCandidates at h
  split at h
  · exact Or.inl h
  split at h
  · exact Or.inl h
  · rcases mem_addAll.1 h with h | h
    · exact Or.inl h
    · rcases assessPapers_bl_mem h with ⟨p, hp, rfl⟩
      rcases mem_papersToAssess hp with ⟨h1, h2, _⟩
      exact Or.inr ⟨⟨p, h1, rfl⟩, h2⟩

theorem updateCandidates_published {cfg : Config} {calcPrio : Paper → Rat}
    {assess : Paper → String} {s : PosterState} :
    ∀ q ∈ (updateCandidates cfg calcPrio assess s).pool,
      ∃ p ∈ s.pool, q.published = p.published := by
  unfold updateCandidates
  split
  · exact fun q hq => ⟨q, hq, rfl⟩
  split
  · exact fun q hq => ⟨q, (sortPapers_perm s.pool).subset hq, rfl⟩
  · intro q hq
    rcases List.mem_map.1 hq with ⟨x, hx, rfl⟩
    have hx2 : x ∈ s.pool := (sortPapers_perm s.pool).subset hx
    have hupd : ∀ kq ∈ (assessedResult cfg calcPrio assess s).upd,
        ∃ p2 ∈ s.pool, kq.2.published = p2.published := by
      intro kq hkq
      rcases (assessPapers_upd_mem hkq).2 with ⟨p2, hp2, _, hpub⟩
      exact ⟨p2, (mem_papersToAssess hp2).1, hpub⟩
    rcases applyUpd_published hupd x with h | ⟨p2, hp2, h⟩
    · exact ⟨x, hx2, h⟩
    · exact ⟨p2, hp2, h⟩

theorem updateCandidates_cand {cfg : Config} {calcPrio : Paper → Rat}
    {assess : Paper → String} {s : PosterState} (hnd : (poolIds s).Nodup) :
    ((updateCandidates cfg calcPrio assess s).candidates.map Paper.arxivId).Nodup ∧
    (∀ q ∈ (updateCandidates cfg calcPrio assess s).candidates,
        q.arxivId ∈ poolIds (updateCandidates cfg calcPrio assess s) ∧
        q.arxivId ∉ (updateCandidates cfg calcPrio assess s).blacklist ∧
        q.arxivId ∉ (updateCandidates cfg calcPrio assess s).postedPapers) ∧
    (updateCandidates cfg calcPrio assess s).candidates.length ≤ cfg.maxCandidates := by
  rcases @assessPapers_nodup cfg calcPrio assess (papersToAssess cfg s) 0
    (@papersToAssess_nodup cfg s hnd) with ⟨raccNd, rdisj⟩
  unfold updateCandidates
  split
  · exact ⟨List.Pairwise.nil, fun q hq => absurd hq (List.not_mem_nil q), by simp⟩
  split
  · exact ⟨List.Pairwise.nil, fun q hq => absurd hq (List.not_mem_nil q), by simp⟩
  · refine ⟨?_, ?_, ?_⟩
    · have h1 : ((sortPapers (assessedResult cfg calcPrio assess s).acc).map
          Paper.arxivId).Nodup :=
        (sortPapers_ids_perm _).nodup_iff.2 raccNd
      exact ((List.take_sublist _ _).map Paper.arxivId).nodup h1
    · intro q hq
      have hacc : q ∈ (assessedResult cfg calcPrio assess s).acc :=
        (sortPapers_perm _).subset ((List.take_sublist _ _).subset hq)
      rcases assessPapers_acc_mem hacc with ⟨p, hp, hid, _⟩
      rcases mem_papersToAssess hp with ⟨hpool, hpost, hbl⟩
      refine ⟨?_, ?_, ?_⟩
      · show q.arxivId ∈ ((sortPapers s.pool).map
          (applyUpd (assessedResult cfg calcPrio assess s).upd)).map Paper.arxivId
        rw [mainPoolIds_eq, hid]
        exact (sortPapers_ids_perm s.pool).mem_iff.2 (List.mem_map_of_mem _ hpool)
      · intro hmem
        rcases mem_addAll.1 hmem with hmem | hmem
        · exact (hid ▸ hbl) hmem
        · exact rdisj q hacc hmem
      · exact hid ▸ hpost
    · exact List.length_take_le _ _

/-! ## Lemmas about discovery -/

theorem filterTrending_subset {now : Int} {l : List Paper} :
    ∀ q ∈ filterTrending now l, q ∈ l := by
  intro q hq
  unfold filterTrending at hq
  split at hq
  · exact (sortPapers_perm l).subset ((List.take_sublist _ _).subset hq)
  · exact (List.filter_sublist l).subset ((sortPapers_perm _).subset hq)

theorem filterTrending_ids_nodup {now : Int} {l : List Paper}
    (h : (l.map Paper.arxivId).Nodup) :
    ((filterTrending now l).map Paper.arxivId).Nodup := by
  unfold filterTrending
  split
  · exact ((List.take_sublist _ _).map _).nodup ((sortPapers_ids_perm l).nodup_iff.2 h)
  · have h1 : ((l.filter (isTrending now l)).map Paper.arxivId).Nodup :=
      ((List.filter_sublist l).map _).nodup h
    exact (sortPapers_ids_perm _).nodup_iff.2 h1

theorem discoverPapers_mem {calcPrio : Paper → Rat} {now : Int}
    {s : PosterState} {feed : List Paper} {q : Paper}
    (h : q ∈ discoverPapers calcPrio now s feed) :
    q.arxivId ∉ poolIds s ∧ q.arxivId ∉ s.postedPapers ∧ q.arxivId ∉ s.blacklist := by
  unfold discoverPapers at h
  have h2 := (sortPapers_perm _).subset h
  rcases List.mem_map.1 h2 with ⟨x, hx, rfl⟩
  have hx2 := filterTrending_subset x hx
  rcases List.mem_filter.1 hx2 with ⟨_, hpred⟩
  simp only [isExistingId, Bool.not_eq_true', Bool.or_eq_false_iff,
    decide_eq_false_iff_not] at hpred
  exact ⟨hpred.1.1, hpred.1.2, hpred.2⟩

theorem discoverPapers_ids_nodup {calcPrio : Paper → Rat} {now : Int}
    {s : PosterState} {feed : List Paper}
    (hfeed : (feed.map Paper.arxivId).Nodup) :
    ((discoverPapers calcPrio now s feed).map Paper.arxivId).Nodup := by
  unfold discoverPapers
  have h0 : ((feed.filter fun p => !isExistingId s p.arxivId).map Paper.arxivId).Nodup :=
    ((List.filter_sublist feed).map _).nodup hfeed
  have h1 := @filterTrending_ids_nodup now _ h0
  refine (sortPapers_ids_perm _).nodup_iff.2 ?_
  rw [List.map_map]
  exact (List.map_congr_left (fun p _ => rfl)).symm ▸ h1

/-! ## Lemmas about the pool merge -/

theorem mergePool_ids_nodup {cfg : Config} {pool newPapers : List Paper}
    (h1 : (pool.map Paper.arxivId).Nodup) (h2 : (newPapers.map Paper.arxivId).Nodup)
    (hdisj : ∀ i ∈ newPapers.map Paper.arxivId, i ∉ pool.map Paper.arxivId) :
    ((mergePool cfg pool newPapers).map Paper.arxivId).Nodup := by
  unfold mergePool
  have happ : ((pool ++ newPapers).map Paper.arxivId).Nodup := by
    rw [List.map_append, List.nodup_append]
    exact ⟨h1, h2, fun i hi hi2 => hdisj i hi2 hi⟩
  exact ((List.take_sublist _ _).map _).nodup ((sortPapers_ids_perm _).nodup_iff.2 happ)

theorem mergePool_length (cfg : Config) (pool newPapers : List Paper) :
    (mergePool cfg pool newPapers).length ≤ cfg.maxPoolSize :=
  List.length_take_le _ _

theorem mergePool_mem {cfg : Config} {pool newPapers : List Paper} {q : Paper}
    (h : q ∈ mergePool cfg pool newPapers) : q ∈ pool ∨ q ∈ newPapers := by
  unfold mergePool at h
  exact List.mem_append.1 ((sortPapers_perm _).subset ((List.take_sublist _ _).subset h))

/-! ## The state invariant -/


theorem inv_updateCandidates {cfg : Config} {calcPrio : Paper → Rat}
    {assess : Paper → String} {s : PosterState}
    (hnd : (poolIds s).Nodup) (hlen : s.pool.length ≤ cfg.maxPoolSize)
    (hbl : ∀ i ∈ s.blacklist, i ∉ s.postedPapers) :
    StateInv cfg (updateCandidates cfg calcPrio assess s) := by
  rcases @updateCandidates_cand cfg calcPrio assess s hnd with ⟨h1, h2, h3⟩
  rcases updateCandidates_fixed cfg calcPrio assess s with ⟨hpp, _⟩
  refine ⟨?_, h1, ?_, ?_, ?_, ?_, ?_, h3⟩
  · exact (updateCandidates_poolIds_perm cfg calcPrio assess s).nodup_iff.2 hnd
  · exact fun p hp => (h2 p hp).1
  · exact fun p hp => (h2 p hp).2.1
  · exact fun p hp => (h2 p hp).2.2
  · intro i hi
    rw [hpp]
    rcases updateCandidates_blacklist_mem hi with hi | ⟨_, hnp⟩
    · exact hbl i hi
    · exact hnp
  · rw [updateCandidates_pool_length]
    exact hlen

theorem inv_cleanupPool {cfg : Config} {calcPrio : Paper → Rat}
    {assess : Paper → String} {now : Int} {s : PosterState} (h : StateInv cfg s) :
    StateInv cfg (cleanupPool cfg calcPrio assess now s) := by
  unfold cleanupPool
  split
  · exact h
  · apply inv_updateCandidates
    · exact ((List.filter_sublist _).map _).nodup h.poolNodup
    · exact le_trans (List.length_filter_le _ _) h.poolLe
    · exact h.blPostedDisj

theorem inv_discoverStep {cfg : Config} {calcPrio : Paper → Rat}
    {assess : Paper → String} {now : Int} {feed : List Paper} {s : PosterState}
    (hfeed : (feed.map Paper.arxivId).Nodup) (h : StateInv cfg s) :
    StateInv cfg (discoverStep cfg calcPrio assess now feed s) := by
  unfold discoverStep
  split
  · exact inv_updateCandidates h.poolNodup h.poolLe h.blPostedDisj
  · apply inv_updateCandidates
    · apply mergePool_ids_nodup h.poolNodup (discoverPapers_ids_nodup hfeed)
      intro i hi
      rcases List.mem_map.1 hi with ⟨q, hq, rfl⟩
      exact (discoverPapers_mem hq).1
    · exact mergePool_length cfg _ _
    · exact h.blPostedDisj

theorem inv_postSuccessOp {cfg : Config} {calcPrio : Paper → Rat}
    {assess : Paper → String} {now : Int} {s : PosterState} (h : StateInv cfg s) :
    StateInv cfg (postSuccessOp cfg calcPrio assess now s) := by
  unfold postSuccessOp
  split
  · exact h
  · rename_i paper rest heq
    apply inv_updateCandidates
    · exact h.poolNodup
    · exact h.poolLe
    · intro i hi hip
      rcases mem_addId.1 hip with rfl | hip
      · exact h.candNotBl paper (by rw [heq]; exact List.mem_cons_self _ _) hi
      · exact h.blPostedDisj i hi hip

theorem inv_postFailureOp {cfg : Config} {s : PosterState} (h : StateInv cfg s) :
    StateInv cfg (postFailureOp s) := by
  unfold postFailureOp
  split
  · exact h
  · rename_i paper rest heq
    have hmem : ∀ p ∈ rest, p ∈ s.candidates := by
      intro p hp
      rw [heq]
      exact List.mem_cons_of_mem paper hp
    refine ⟨h.poolNodup, ?_, ?_, ?_, ?_, h.blPostedDisj, h.poolLe, ?_⟩
    · have hnd := h.candNodup
      rw [candidateIds, heq, List.map_cons, List.nodup_cons] at hnd
      exact hnd.2
    · exact fun p hp => h.candSubPool p (hmem p hp)
    · exact fun p hp => h.candNotBl p (hmem p hp)
    · exact fun p hp => h.candNotPosted p (hmem p hp)
    · have hle := h.candLe
      rw [heq, List.length_cons] at hle
      exact le_trans (Nat.le_succ _) hle

theorem inv_removeCandidate {cfg : Config} {calcPrio : Paper → Rat}
    {assess : Paper → String} {s : PosterState} {arxivId : String}
    (h : StateInv cfg s) :
    StateInv cfg (removeCandidate cfg calcPrio assess s arxivId).2 := by
  unfold removeCandidate
  split
  · rename_i hany
    apply inv_updateCandidates
    · exact h.poolNodup
    · exact h.poolLe
    · intro i hi hip
      rcases mem_addId.1 hi with rfl | hi
      · rcases List.any_eq_true.1 hany with ⟨p, hp, hpe⟩
        have hpid : p.arxivId = i := by simpa using hpe
        exact h.candNotPosted p hp (hpid ▸ hip)
      · exact h.blPostedDisj i hi hip
  · exact h

theorem inv_initState (cfg : Config) : StateInv cfg initState := by
  refine ⟨?_, ?_, ?_, ?_, ?_, ?_, ?_, ?_⟩ <;> simp [initState, poolIds, candidateIds]

theorem inv_step {cfg : Config} {s s2 : PosterState} (h : StepR cfg s s2)
    (hinv : StateInv cfg s) : StateInv cfg s2 := by
  cases h with
  | discover calcPrio assess now feed s hfeed => exact inv_discoverStep hfeed hinv
  | cleanup calcPrio assess now s => exact inv_cleanupPool hinv
  | updateCands calcPrio assess s =>
    exact inv_updateCandidates hinv.poolNodup hinv.poolLe hinv.blPostedDisj
  | post calcPrio assess now s hq hc => exact inv_postSuccessOp hinv
  | postFail s hq hc => exact inv_postFailureOp hinv
  | removeCand calcPrio assess s arxivId => exact inv_removeCandidate hinv

theorem inv_steps {cfg : Config} {s s2 : PosterState}
    (h : Relation.ReflTransGen (StepR cfg) s s2) (hinv : StateInv cfg s) :
    StateInv cfg s2 := by
  induction h with
  | refl => exact hinv
  | tail _ hstep ih => exact inv_step hstep ih

theorem inv_reachable {cfg : Config} {s : PosterState} (h : ReachableFrom cfg s) :
    StateInv cfg s :=
  inv_steps h (inv_initState cfg)

/-! ## Monotonicity of the posted set and the blacklist -/

theorem step_posted_subset {cfg : Config} {s s2 : PosterState} (h : StepR cfg s s2) :
    s.postedPapers ⊆ s2.postedPapers := by
  cases h with
  | discover calcPrio assess now feed s hfeed =>
    unfold discoverStep
    split <;>
      exact fun i hi => ((updateCandidates_fixed _ _ _ _).1).symm ▸ hi
  | cleanup calcPrio assess now s =>
    unfold cleanupPool
    split
    · exact fun i hi => hi
    · exact fun i hi => ((updateCandidates_fixed _ _ _ _).1).symm ▸ hi
  | updateCands calcPrio assess s =>
    exact fun i hi => ((updateCandidates_fixed _ _ _ _).1).symm ▸ hi
  | post calcPrio assess now s hq hc =>
    unfold postSuccessOp
    split
    · exact fun i hi => hi
    · intro i hi
      rw [(updateCandidates_fixed _ _ _ _).1]
      exact mem_addId.2 (Or.inr hi)
  | postFail s hq hc =>
    unfold postFailureOp
    split <;> exact fun i hi => hi
  | removeCand calcPrio assess s arxivId =>
    unfold removeCandidate
    split
    · exact fun i hi => ((updateCandidates_fixed _ _ _ _).1).symm ▸ hi
    · exact fun i hi => hi

theorem step_blacklist_subset {cfg : Config} {s s2 : PosterState} (h : StepR cfg s s2) :
    s.blacklist ⊆ s2.blacklist := by
  cases h with
  | discover calcPrio assess now feed s hfeed =>
    unfold discoverStep
    split <;> exact fun i hi => updateCandidates_blacklist_subset hi
  | cleanup calcPrio assess now s =>
    unfold cleanupPool
    split
    · exact fun i hi => hi
    · exact fun i hi => updateCandidates_blacklist_subset hi
  | updateCands calcPrio assess s =>
    exact fun i hi => updateCandidates_blacklist_subset hi
  | post calcPrio assess now s hq hc =>
    unfold postSuccessOp
    split
    · exact fun i hi => hi
    · exact fun i hi => updateCandidates_blacklist_subset hi
  | postFail s hq hc =>
    unfold postFailureOp
    split <;> exact fun i hi => hi
  | removeCand calcPrio assess s arxivId =>
    unfold removeCandidate
    split
    · intro i hi
      exact updateCandidates_blacklist_subset (mem_addId.2 (Or.inr hi))
    · exact fun i hi => hi

theorem steps_posted_subset {cfg : Config} {s s2 : PosterState}
    (h : Relation.ReflTransGen (StepR cfg) s s2) :
    s.postedPapers ⊆ s2.postedPapers := by
  induction h with
  | refl => exact fun _ hi => hi
  | tail _ hstep ih => exact fun i hi => step_posted_subset hstep (ih hi)

theorem steps_blacklist_subset {cfg : Config} {s s2 : PosterState}
    (h : Relation.ReflTransGen (StepR cfg) s s2) :
    s.blacklist ⊆ s2.blacklist := by
  induction h with
  | refl => exact fun _ hi => hi
  | tail _ hstep ih => exact fun i hi => step_blacklist_subset hstep (ih hi)

/-! ## Lemmas about cleanup -/

theorem cleanupFilter_idem (cfg : Config) (now : Int) (pool : List Paper) :
    cleanupFilter cfg now (cleanupFilter cfg now pool) = cleanupFilter cfg now pool := by
  unfold cleanupFilter
  exact List.filter_eq_self.2 (fun p hp => (List.mem_filter.1 hp).2)

theorem cleanupPool_pool_fresh {cfg : Config} {calcPrio : Paper → Rat}
    {assess : Paper → String} {now : Int} {s : PosterState} :
    ∀ q ∈ (updateCandidates cfg calcPrio assess
        { s with pool := cleanupFilter cfg now s.pool }).pool,
      now - q.published < cfg.poolRetentionDays * 24 * 3600 := by
  intro q hq
  rcases updateCandidates_published _ hq with ⟨p, hp, hpub⟩
  rw [hpub]
  have hm := List.mem_filter.1 hp
  simpa [cleanupFilter] using hm.2

theorem cleanupPool_twice_pool_length (cfg : Config) (calcPrio : Paper → Rat)
    (assess : Paper → String) (now : Int) (s : PosterState) :
    (cleanupPool cfg calcPrio assess now
        (cleanupPool cfg calcPrio assess now s)).pool.length =
      (cleanupPool cfg calcPrio assess now s).pool.length := by
  unfold cleanupPool
  by_cases h0 : s.pool.isEmpty
  · rw [if_pos h0, if_pos h0]
  · rw [if_neg h0]
    by_cases h1 : (updateCandidates cfg calcPrio assess
        { s with pool := cleanupFilter cfg now s.pool }).pool.isEmpty
    · rw [if_pos h1]
    · rw [if_neg h1]
      have hfix : cleanupFilter cfg now
          (updateCandidates cfg calcPrio assess
            { s with pool := cleanupFilter cfg now s.pool }).pool =
          (updateCandidates cfg calcPrio assess
            { s with pool := cleanupFilter cfg now s.pool }).pool := by
        unfold cleanupFilter
        exact List.filter_eq_self.2
          (fun q hq => decide_eq_true (cleanupPool_pool_fresh q hq))
      rw [updateCandidates_pool_length]
      show (cleanupFilter cfg now _).length = _
      rw [hfix]

section ConcreteEvaluation

attribute [local semireducible] Rat.add Rat.mul Rat.sub Rat.inv

theorem exS1_reachable : ReachableFrom defaultConfig exS1 :=
  Relation.ReflTransGen.single
    (StepR.discover exCalc exAssessHigh exNow [paperA] initState (by decide))

theorem exS2_reachable : ReachableFrom defaultConfig exS2 :=
  exS1_reachable.tail
    (StepR.post exCalc exAssessHigh exNow exS1 (by decide) (by decide))

theorem exS5_reachable : ReachableFrom defaultConfig exS5 :=
  Relation.ReflTransGen.single
    (StepR.discover exCalc exAssessLow exNow [paperC] initState (by decide))

theorem exS6_reachable : ReachableFrom defaultConfig exS6 :=
  Relation.ReflTransGen.single
    (StepR.discover exCalc exAssessUnknown exNow [paperB] initState (by decide))

set_option maxRecDepth 100000 in
theorem exS8_reachable : ReachableFrom defaultConfig exS8 :=
  Relation.ReflTransGen.single
    (StepR.discover exCalc exAssess8 exNow exFeed8 initState (by decide))

end ConcreteEvaluation

/-! ## Claim C1 -/

/-- C1 (amended): in every reachable state the candidates list, the
blacklist and the posted set are pairwise disjoint on ids, and every
candidate id is also a pool id.  The original four-way disjointness fails
because promotion copies a pool entry instead of removing it (see the
counterexample). -/
theorem claim1_threeWayDisjoint (cfg : Config) (s : PosterState)
    (h : ReachableFrom cfg s) :
    (∀ p ∈ s.candidates, p.arxivId ∉ s.blacklist ∧ p.arxivId ∉ s.postedPapers) ∧
    (∀ i ∈ s.blacklist, i ∉ s.postedPapers) ∧
    (∀ p ∈ s.candidates, p.arxivId ∈ poolIds s) := by
  have hinv := inv_reachable h
  exact ⟨fun p hp => ⟨hinv.candNotBl p hp, hinv.candNotPosted p hp⟩,
    hinv.blPostedDisj, hinv.candSubPool⟩

/-! ## Claim C2 -/

/-- C2 (amended): a posted id stays posted, never appears in the
candidates list of any later reachable state, and a discovery merge never
re-adds it to the pool; the copy already in the pool however stays there,
which refutes the original claim that the id is absent from the pool. -/
theorem claim2_postedTerminal :
    (∀ (cfg : Config) (s s2 : PosterState) (i : String),
        ReachableFrom cfg s → Relation.ReflTransGen (StepR cfg) s s2 →
        i ∈ s.postedPapers → i ∈ s2.postedPapers ∧ i ∉ candidateIds s2) ∧
    (∀ (cfg : Config) (calcPrio : Paper → Rat) (assess : Paper → String)
        (now : Int) (feed : List Paper) (s : PosterState) (i : String),
        i ∈ s.postedPapers →
        i ∈ poolIds (discoverStep cfg calcPrio assess now feed s) →
        i ∈ poolIds s) := by
  constructor
  · intro cfg s s2 i hre hsteps hi
    have hp2 : i ∈ s2.postedPapers := steps_posted_subset hsteps hi
    refine ⟨hp2, ?_⟩
    intro hc
    have hinv := inv_reachable (hre.trans hsteps)
    rcases List.mem_map.1 hc with ⟨p, hp, hpid⟩
    exact hinv.candNotPosted p hp (hpid ▸ hp2)
  · intro cfg calcPrio assess now feed s i hi hmem
    unfold discoverStep at hmem
    split at hmem
    · exact (updateCandidates_poolIds_perm cfg calcPrio assess
        { s with lastDiscovery := some now }).mem_iff.1 hmem
    · have h2 := (updateCandidates_poolIds_perm cfg calcPrio assess
        { s with
            pool := mergePool cfg s.pool (discoverPapers calcPrio now s feed)
            lastDiscovery := some now }).mem_iff.1 hmem
      rcases List.mem_map.1 h2 with ⟨q, hq, hqid⟩
      rcases mergePool_mem hq with hq | hq
      · exact hqid ▸ List.mem_map_of_mem _ hq
      · exfalso
        apply (discoverPapers_mem hq).2.1
        rw [hqid]
        exact hi

/-! ## Claim C3 -/

theorem postFailureOp_eq {s : PosterState} {p : Paper} {rest : List Paper}
    (hc : s.candidates = p :: rest) :
    postFailureOp s = { s with candidates := rest } := by
  unfold postFailureOp
  split
  · rename_i heq
    rw [hc] at heq
    cases heq
  · rename_i q rest2 heq
    rw [hc] at heq
    cases heq
    rfl

/-- C3 (amended): when publishing fails after the head candidate was
popped, the candidate is dropped from the candidates list (it is not
re-queued), the posted-today list, total counter, posted set and posting
timestamp are unchanged, the pool is untouched, and the popped paper is
still present in the pool, from which a later candidate update can
promote it again. -/
theorem claim3_failureDropsCandidate (cfg : Config) (s : PosterState)
    (p : Paper) (rest : List Paper) (hre : ReachableFrom cfg s)
    (hc : s.candidates = p :: rest) :
    (postFailureOp s).candidates = rest ∧
    (postFailureOp s).postedToday = s.postedToday ∧
    (postFailureOp s).postedTotal = s.postedTotal ∧
    (postFailureOp s).postedPapers = s.postedPapers ∧
    (postFailureOp s).lastPosting = s.lastPosting ∧
    (postFailureOp s).pool = s.pool ∧
    p.arxivId ∈ poolIds (postFailureOp s) := by
  have hinv := inv_reachable hre
  have hmem : p.arxivId ∈ poolIds s :=
    hinv.candSubPool p (by rw [hc]; exact List.mem_cons_self _ _)
  rw [postFailureOp_eq hc]
  exact ⟨rfl, rfl, rfl, rfl, rfl, rfl, hmem⟩

section ConcreteClaims

attribute [local semireducible] Rat.add Rat.mul Rat.sub Rat.inv

/-- C1 (counterexample): in the reachable state exS1 the id "a" is both a
pool id and a candidate id, so an id is not in at most one of the four
sets: promotion duplicates the pool entry instead of moving it. -/
theorem claim1_cx :
    ReachableFrom defaultConfig exS1 ∧
      "a" ∈ poolIds exS1 ∧ "a" ∈ candidateIds exS1 :=
  ⟨exS1_reachable, by decide, by decide⟩

/-- C1 (witness): the amended disjointness applied to the reachable state
exS1 and its concrete candidate "a". -/
theorem claim1_witness :
    "a" ∈ candidateIds exS1 ∧ "a" ∉ exS1.blacklist ∧ "a" ∉ exS1.postedPapers := by
  have h := claim1_threeWayDisjoint defaultConfig exS1 exS1_reachable
  have hc : "a" ∈ candidateIds exS1 := by decide
  rcases List.mem_map.1 hc with ⟨p, hp, hpid⟩
  exact ⟨hc, hpid ▸ (h.1 p hp).1, hpid ▸ (h.1 p hp).2⟩

/-- C2 (counterexample): in the reachable state exS2 the id "a" is in the
posted set and still in the pool, refuting absence from the pool after
posting. -/
theorem claim2_cx :
    ReachableFrom defaultConfig exS2 ∧
      "a" ∈ exS2.postedPapers ∧ "a" ∈ poolIds exS2 :=
  ⟨exS2_reachable, by decide, by decide⟩

/-- C2 (witness): the amended claim applied to the reachable state exS2
with the posted id "a" and the empty step sequence. -/
theorem claim2_witness :
    "a" ∈ exS2.postedPapers ∧ "a" ∉ candidateIds exS2 :=
  claim2_postedTerminal.1 defaultConfig exS2 exS2 "a" exS2_reachable
    Relation.ReflTransGen.refl (by decide)

/-- C3 (counterexample): in the reachable state exS1 the posting
preconditions hold and the only candidate is "a"; after a failed publish
the candidates list is empty, so the failed item was not re-queued at the
front of the candidates list. -/
theorem claim3_cx :
    ReachableFrom defaultConfig exS1 ∧
    exS1.postedToday.length < defaultConfig.maxPostsPerDay ∧
    candidateIds exS1 = ["a"] ∧
    candidateIds (postFailureOp exS1) = [] :=
  ⟨exS1_reachable, by decide, by decide, by decide⟩

/-- C3 (witness): the amended claim applied to exS1 and its concrete
candidate paperA2. -/
theorem claim3_witness :
    (postFailureOp exS1).candidates = [] ∧ "a" ∈ poolIds (postFailureOp exS1) := by
  have h := claim3_failureDropsCandidate defaultConfig exS1 paperA2 []
    exS1_reachable (by decide)
  exact ⟨h.1, h.2.2.2.2.2.2⟩

end ConcreteClaims

/-! ## Claim C4 -/

/-- C4 (confirmed against the spec-modelled scoring): the base term of the
priority is (popularity + 1)^2 for a positive popularity score and 0
otherwise; a score of 10 yields the 121 base term plus the high-score
bonus, and with equal remaining attributes such an item always outranks
an item without any popularity signal. -/
theorem claim4_priorityBase :
    (∀ a : Rat, 0 < a → basePopularity (some a) = (a + 1) ^ 2) ∧
    (∀ a : Rat, ¬0 < a → basePopularity (some a) = 0) ∧
    basePopularity none = 0 ∧
    basePopularity (some 10) = 121 ∧
    highScoreBonus (some 10) = 100 ∧
    (∀ (now : Int) (p q : Paper),
        p.altmetricScore = some 10 → q.altmetricScore = none →
        p.published = q.published → p.categories = q.categories →
        p.altmetricData = q.altmetricData → p.accessibility = q.accessibility →
        calculatePriority now q < calculatePriority now p) := by
  have hbase : basePopularity (some 10) = 121 := by norm_num [basePopularity]
  have hbonus : highScoreBonus (some 10) = 100 := by norm_num [highScoreBonus]
  refine ⟨?_, ?_, rfl, hbase, hbonus, ?_⟩
  · intro a ha; simp [basePopularity, ha]
  · intro a ha; simp [basePopularity, ha]
  · intro now p q hp hq hpub hcat hdata hacc
    unfold calculatePriority
    rw [hp, hq, hpub, hcat, hdata, hacc]
    have hm : 0 < accessibilityMultiplier q.accessibility := by
      cases q.accessibility with
      | none => norm_num [accessibilityMultiplier]
      | some a =>
        by_cases ha : a = "high" <;> simp [accessibilityMultiplier, ha]
    apply mul_lt_mul_of_pos_right ?_ hm
    have h3 : basePopularity (none : Option Rat) = 0 := rfl
    have h4 : highScoreBonus (none : Option Rat) = 0 := rfl
    rw [hbase, hbonus, h3, h4]
    linarith

/-! ## Claim C5 -/

/-- C5 (amended): a pooled paper whose assessment rates it low is
blacklisted and not promoted; once blacklisted the id never appears in
the candidates list of any later reachable state; the selection pass does
not remove any paper from the pool, so the low-rated paper stays pooled
until normal eviction. -/
theorem claim5_lowBlacklisted :
    (∀ (calcPrio : Paper → Rat) (assess : Paper → String) (p : Paper),
        p.accessibility = none → assess p = "low" →
        (processPaper calcPrio assess p).2.1 = some p.arxivId ∧
        (processPaper calcPrio assess p).1 = none) ∧
    (∀ (cfg : Config) (s s2 : PosterState) (i : String),
        ReachableFrom cfg s → Relation.ReflTransGen (StepR cfg) s s2 →
        i ∈ s.blacklist → i ∈ s2.blacklist ∧ i ∉ candidateIds s2) ∧
    (∀ (cfg : Config) (calcPrio : Paper → Rat) (assess : Paper → String)
        (s : PosterState) (i : String),
        i ∈ poolIds (updateCandidates cfg calcPrio assess s) ↔ i ∈ poolIds s) := by
  refine ⟨?_, ?_, ?_⟩
  · intro calcPrio assess p h1 h2
    unfold processPaper
    rw [h1]
    simp [h2]
  · intro cfg s s2 i hre hsteps hi
    have hb2 : i ∈ s2.blacklist := steps_blacklist_subset hsteps hi
    refine ⟨hb2, ?_⟩
    intro hc
    have hinv := inv_reachable (hre.trans hsteps)
    rcases List.mem_map.1 hc with ⟨p, hp, hpid⟩
    exact hinv.candNotBl p hp (hpid ▸ hb2)
  · intro cfg calcPrio assess s i
    exact (updateCandidates_poolIds_perm cfg calcPrio assess s).mem_iff

/-! ## Claim C6 -/

/-- C6 (amended): a failed assessment yields the distinct rating
"unknown"; the paper is not blacklisted and no paper leaves the pool
during candidate selection; however the code treats "unknown" like an
accessible rating, so the paper is promoted to the candidates rather than
held back, and since its rating is now stored it is never re-assessed on
a later cycle. -/
theorem claim6_unknownPromoted :
    (∀ (calcPrio : Paper → Rat) (assess : Paper → String) (p : Paper),
        p.accessibility = none → assess p = "unknown" →
        (processPaper calcPrio assess p).2.1 = none ∧
        ∃ q, (processPaper calcPrio assess p).1 = some q ∧
          q.accessibility = some "unknown" ∧ q.arxivId = p.arxivId) ∧
    (∀ (calcPrio : Paper → Rat) (assess : Paper → String) (p : Paper),
        p.accessibility = some "unknown" →
        processPaper calcPrio assess p = (some p, none, none)) ∧
    (∀ (cfg : Config) (calcPrio : Paper → Rat) (assess : Paper → String)
        (s : PosterState) (i : String),
        i ∈ poolIds (updateCandidates cfg calcPrio assess s) ↔ i ∈ poolIds s) := by
  refine ⟨?_, ?_, ?_⟩
  · intro calcPrio assess p h1 h2
    unfold processPaper
    rw [h1]
    simp [h2]
  · intro calcPrio assess p h1
    unfold processPaper
    rw [h1]
    simp
  · intro cfg calcPrio assess s i
    exact (updateCandidates_poolIds_perm cfg calcPrio assess s).mem_iff

/-! ## Claim C7 -/

/-- C7 (confirmed): every reachable state satisfies both capacity bounds,
and the merge keeps the longest-prefix of the descending sorted combined
list, so every paper dropped by the truncation has priority at most that
of every kept paper. -/
theorem claim7_capacityBounds :
    (∀ (cfg : Config) (s : PosterState), ReachableFrom cfg s →
        s.pool.length ≤ cfg.maxPoolSize ∧
        s.candidates.length ≤ cfg.maxCandidates) ∧
    (∀ (cfg : Config) (pool newPapers : List Paper),
        ∀ p ∈ mergePool cfg pool newPapers,
          ∀ q ∈ (sortPapers (pool ++ newPapers)).drop cfg.maxPoolSize,
            q.priorityScore ≤ p.priorityScore) := by
  constructor
  · intro cfg s h
    have hinv := inv_reachable h
    exact ⟨hinv.poolLe, hinv.candLe⟩
  · intro cfg pool newPapers p hp q hq
    have hs := sortPapers_sorted (pool ++ newPapers)
    rw [← List.take_append_drop cfg.maxPoolSize (sortPapers (pool ++ newPapers))] at hs
    exact (List.pairwise_append.1 hs).2.2 p hp q hq

/-! ## Claim C8 -/

/-- C8 (amended): the age filter of cleanup is idempotent, and a second
cleanup run at the same time removes no paper from the pool; but the full
_cleanup_pool also refreshes the candidates, and that refresh can assess
papers newly shifted into the assessment window, so the second call is
not a no-op on candidates and blacklist in general (see the
counterexample, where it grows the blacklist). -/
theorem claim8_cleanupIdem :
    (∀ (cfg : Config) (now : Int) (pool : List Paper),
        cleanupFilter cfg now (cleanupFilter cfg now pool) =
          cleanupFilter cfg now pool) ∧
    (∀ (cfg : Config) (calcPrio : Paper → Rat) (assess : Paper → String)
        (now : Int) (s : PosterState),
        (cleanupPool cfg calcPrio assess now
            (cleanupPool cfg calcPrio assess now s)).pool.length =
          (cleanupPool cfg calcPrio assess now s).pool.length) :=
  ⟨cleanupFilter_idem, cleanupPool_twice_pool_length⟩

/-! ## Claim C10 -/

/-- C10 (confirmed): remove_candidate succeeds exactly when some candidate
carries the id; on failure the whole state is returned unchanged, and
exactly on success the id ends up in the blacklist. -/
theorem claim10_removeCandidate (cfg : Config) (calcPrio : Paper → Rat)
    (assess : Paper → String) (s : PosterState) (arxivId : String) :
    ((removeCandidate cfg calcPrio assess s arxivId).1 = true ↔
      ∃ p ∈ s.candidates, p.arxivId = arxivId) ∧
    ((removeCandidate cfg calcPrio assess s arxivId).1 = false →
      (removeCandidate cfg calcPrio assess s arxivId).2 = s) ∧
    ((removeCandidate cfg calcPrio assess s arxivId).1 = true →
      arxivId ∈ (removeCandidate cfg calcPrio assess s arxivId).2.blacklist) := by
  unfold removeCandidate
  split
  · rename_i hany
    refine ⟨?_, ?_, ?_⟩
    · constructor
      · intro _
        rcases List.any_eq_true.1 hany with ⟨p, hp, hpe⟩
        exact ⟨p, hp, by simpa using hpe⟩
      · intro _
        rfl
    · intro h
      cases h
    · intro _
      exact updateCandidates_blacklist_subset (mem_addId.2 (Or.inl rfl))
  · rename_i hany
    refine ⟨?_, fun _ => rfl, ?_⟩
    · constructor
      · intro h
        cases h
      · rintro ⟨p, hp, hpe⟩
        exact absurd (List.any_eq_true.2 ⟨p, hp, by simpa using hpe⟩) hany
    · intro h
      cases h

section ConcreteClaims2

attribute [local semireducible] Rat.add Rat.mul Rat.sub Rat.inv

/-- C4 (witness): the amended claim applied to paperA (Altmetric 10) and
paperQ (no Altmetric signal, all other attributes equal). -/
theorem claim4_witness :
    paperA.altmetricScore = some 10 ∧
    calculatePriority exNow paperQ < calculatePriority exNow paperA :=
  ⟨rfl, claim4_priorityBase.2.2.2.2.2 exNow paperA paperQ rfl rfl rfl rfl rfl rfl⟩

/-- C5 (counterexample): in the reachable state exS5 the low-rated paper
"c" is blacklisted but still in the pool, refuting its removal from the
pool. -/
theorem claim5_cx :
    ReachableFrom defaultConfig exS5 ∧
    "c" ∈ exS5.blacklist ∧ "c" ∈ poolIds exS5 ∧ candidateIds exS5 = [] :=
  ⟨exS5_reachable, by decide, by decide, by decide⟩

/-- C5 (witness): the amended claim applied to the reachable state exS5
with blacklisted id "c" and the empty step sequence. -/
theorem claim5_witness :
    "c" ∈ exS5.blacklist ∧ "c" ∉ candidateIds exS5 :=
  claim5_lowBlacklisted.2.1 defaultConfig exS5 exS5 "c" exS5_reachable
    Relation.ReflTransGen.refl (by decide)

/-- C6 (counterexample): in the reachable state exS6 the paper "b", whose
assessment failed with rating "unknown", sits in the candidates list,
refuting that such papers are not promoted. -/
theorem claim6_cx :
    ReachableFrom defaultConfig exS6 ∧
    "b" ∈ candidateIds exS6 ∧
    exS6.candidates.map Paper.accessibility = [some "unknown"] ∧
    exS6.blacklist = [] :=
  ⟨exS6_reachable, by decide, by decide, by decide⟩

/-- C6 (witness): the amended claim applied to the unrated paper "b" under
the failing assessor. -/
theorem claim6_witness :
    (processPaper exCalc exAssessUnknown paperB).2.1 = none ∧
    ∃ q, (processPaper exCalc exAssessUnknown paperB).1 = some q ∧
      q.accessibility = some "unknown" ∧ q.arxivId = paperB.arxivId :=
  claim6_unknownPromoted.1 exCalc exAssessUnknown paperB rfl rfl

/-- C7 (witness): the capacity bounds applied to the reachable
seventeen-paper state exS8. -/
theorem claim7_witness :
    exS8.pool.length ≤ defaultConfig.maxPoolSize ∧
    exS8.candidates.length ≤ defaultConfig.maxCandidates :=
  claim7_capacityBounds.1 defaultConfig exS8 exS8_reachable

set_option maxRecDepth 200000 in
/-- C8 (counterexample): on the reachable state exS8, a second cleanup at
the same instant blacklists p16, which the first call left untouched, so
cleanup run twice differs from cleanup run once. -/
theorem claim8_cx :
    ReachableFrom defaultConfig exS8 ∧
    "p16" ∈ exC8b.blacklist ∧ "p16" ∉ exC8a.blacklist :=
  ⟨exS8_reachable, by decide, by decide⟩

/-- C10 (witness): the claim applied to exS1, once with an absent id (the
state is unchanged) and once with the present candidate id "a" (it is
blacklisted). -/
theorem claim10_witness :
    (removeCandidate defaultConfig exCalc exAssessHigh exS1 "zz").2 = exS1 ∧
    "a" ∈ (removeCandidate defaultConfig exCalc exAssessHigh exS1 "a").2.blacklist := by
  constructor
  · exact (claim10_removeCandidate defaultConfig exCalc exAssessHigh exS1 "zz").2.1
      (by decide)
  · exact (claim10_removeCandidate defaultConfig exCalc exAssessHigh exS1 "a").2.2
      (by decide)

end ConcreteClaims2
